import Mathlib

/-!
Verification of the analytics aggregation engine of `src/pages/analytics.tsx`.

The TypeScript source is shallowly embedded: timestamps are integer
milliseconds (`ℤ`, with calendar days obtained by floor division by
86400000 and weekdays by `(day + 4) % 7`, day 0 = 1970-01-01 = Thursday),
fractional quantities (hours, rates, byte counts) are rationals, nullable
fields are `Option`, and JavaScript `Map`/mutable-counter accumulation is
expressed as folds over immutable accumulators.
-/

/-- An attachment size value as it appears in the source: either a number
(already bytes) or free-form text.  `parseSizeToBytes` accepts
`string | number | undefined`. -/
inductive SizeValue where
  | num (q : ℚ)
  | txt (s : String)
deriving DecidableEq

/-- The `submittedAttachment` object; only its `size` field is read. -/
structure Attachment where
  size : Option SizeValue
deriving DecidableEq

/-- One assignment record (`homework`).  `submitTime` and `deadline` are
millisecond timestamps; truthiness tests on them in the source (`hw.submitTime`,
`hw.deadline`, `!hw.submitted`) become `Option.isSome` / `Bool` tests. -/
structure Homework where
  id : ℕ
  courseId : String
  submitted : Bool
  submitTime : Option ℤ
  deadline : Option ℤ
  submittedAttachment : Option Attachment
deriving DecidableEq

/-- The semester range used by the trend-window heuristic. -/
structure SemesterRange where
  startDate : Option ℤ
  endDate : Option ℤ
deriving DecidableEq

/-- `submittedAll = homeworks.filter(h => h.submitted)`. -/
def submittedAll (hws : List Homework) : List Homework :=
  hws.filter (fun h => h.submitted)

/-- `submittedHomeworks = submittedAll.filter(h => h.submitTime)`. -/
def submittedHomeworks (hws : List Homework) : List Homework :=
  (submittedAll hws).filter (fun h => h.submitTime.isSome)

/-- Milliseconds per hour. -/
def msPerHour : ℤ := 3600000

/-- Milliseconds per day. -/
def msPerDay : ℤ := 86400000

/-- Calendar day of a millisecond timestamp (floor division; `/` on `ℤ` is
Euclidean division, which is floor division for a positive divisor). -/
def dayOfMs (t : ℤ) : ℤ := t / msPerDay

/-- `Date.prototype.getHours()`: hour of day, 0–23. -/
def getHoursMs (t : ℤ) : ℤ := (t / msPerHour) % 24

/-- `Date.prototype.getDay()` of a calendar day: 0 = Sunday … 6 = Saturday.
Day 0 (1970-01-01) is a Thursday, hence the offset 4. -/
def weekdayOfDay (d : ℤ) : ℤ := (d + 4) % 7

/-- `startOfWeek` at day granularity: move back to the week's Sunday. -/
def startOfWeekDay (d : ℤ) : ℤ := d - weekdayOfDay d

/-- `submissionRate = totalCount === 0 ? 0 : submittedCount / totalCount`. -/
def submissionRate (hws : List Homework) : ℚ :=
  if hws.length = 0 then 0
  else ((submittedAll hws).length : ℚ) / (hws.length : ℚ)

/-- `nightRate`: share of submissions with hour ≥ 22 or hour < 6. -/
def nightRate (hws : List Homework) : ℚ :=
  if (submittedHomeworks hws).length = 0 then 0
  else
    (((submittedHomeworks hws).filter (fun h =>
        let hour := getHoursMs (h.submitTime.getD 0)
        decide (22 ≤ hour) || decide (hour < 6))).length : ℚ) /
      ((submittedHomeworks hws).length : ℚ)

/-- `weekendRate`: share of submissions on Sunday (0) or Saturday (6). -/
def weekendRate (hws : List Homework) : ℚ :=
  if (submittedHomeworks hws).length = 0 then 0
  else
    (((submittedHomeworks hws).filter (fun h =>
        let day := weekdayOfDay (dayOfMs (h.submitTime.getD 0))
        decide (day = 0) || decide (day = 6))).length : ℚ) /
      ((submittedHomeworks hws).length : ℚ)

/-- `lateRate`: share of submissions with a deadline and `submitTime > deadline`. -/
def lateRate (hws : List Homework) : ℚ :=
  if (submittedHomeworks hws).length = 0 then 0
  else
    (((submittedHomeworks hws).filter (fun h =>
        h.deadline.isSome && decide (h.deadline.getD 0 < h.submitTime.getD 0))).length : ℚ) /
      ((submittedHomeworks hws).length : ℚ)

/-- `leadHours`: `(deadline − submitTime)` in hours for each submitted record
with a deadline (the source returns `[]` early when there are no submissions). -/
def leadHours (hws : List Homework) : List ℚ :=
  if (submittedHomeworks hws).length = 0 then []
  else
    ((submittedHomeworks hws).filter (fun h => h.deadline.isSome)).map
      (fun h => ((h.deadline.getD 0 - h.submitTime.getD 0 : ℤ) : ℚ) / (msPerHour : ℚ))

/-- `last6Rate`: share of lead-hour values in `[0, 6]`. -/
def last6Rate (hws : List Homework) : ℚ :=
  if (leadHours hws).length = 0 then 0
  else
    (((leadHours hws).filter (fun h => decide (0 ≤ h) && decide (h ≤ 6))).length : ℚ) /
      ((leadHours hws).length : ℚ)

/-- `last24Rate`: share of lead-hour values in `[0, 24]`. -/
def last24Rate (hws : List Homework) : ℚ :=
  if (leadHours hws).length = 0 then 0
  else
    (((leadHours hws).filter (fun h => decide (0 ≤ h) && decide (h ≤ 24))).length : ℚ) /
      ((leadHours hws).length : ℚ)

/-- A labeled numeric range as used by the source's bucket arrays:
`min` exclusive, `max` inclusive; `none` stands for `-Infinity` / `Infinity`
(a comparison against an absent bound is always true for finite values). -/
structure Bucket where
  label : String
  min : Option ℚ
  max : Option ℚ
deriving DecidableEq

/-- `b => value > b.min && value <= b.max`. -/
def bucketMatches (b : Bucket) (v : ℚ) : Bool :=
  (match b.min with
   | none => true
   | some m => decide (m < v)) &&
  (match b.max with
   | none => true
   | some M => decide (v ≤ M))

/-- `Array.prototype.findIndex`, with `-1` modelled as `none`. -/
def findIndexB (p : α → Bool) : List α → Option ℕ
  | [] => none
  | a :: as => if p a then some 0 else (findIndexB p as).map (· + 1)

/-- `counts[idx] += 1` on a counter array. -/
def bump (l : List ℕ) (i : ℕ) : List ℕ :=
  l.set i (l.getD i 0 + 1)

/-- The five submission-lag buckets of `submissionLagBuckets`. -/
def lagBuckets : List Bucket :=
  [⟨"逾期", none, some 0⟩,
   ⟨"0-6小时", some 0, some 6⟩,
   ⟨"6-24小时", some 6, some 24⟩,
   ⟨"1-3天", some 24, some 72⟩,
   ⟨"3天以上", some 72, none⟩]

/-- Index of the first lag bucket matching a lag value, as computed by
`buckets.findIndex(b => diffHours > b.min && diffHours <= b.max)`. -/
def lagFindIdx (v : ℚ) : Option ℕ :=
  findIndexB (fun b => bucketMatches b v) lagBuckets

/-- `diffHours = (hw.deadline.getTime() - hw.submitTime.getTime()) / 3600000`. -/
def lagHoursOf (h : Homework) : ℚ :=
  ((h.deadline.getD 0 - h.submitTime.getD 0 : ℤ) : ℚ) / (msPerHour : ℚ)

/-- One iteration of the `submissionLagBuckets` loop: records without a
deadline are skipped (`continue`), otherwise the first matching bucket is
incremented (nothing is incremented when `findIndex` returns `-1`). -/
def lagStep (counts : List ℕ) (h : Homework) : List ℕ :=
  if h.deadline.isSome then
    match lagFindIdx (lagHoursOf h) with
    | some i => bump counts i
    | none => counts
  else counts

/-- The counter accumulation loop of `submissionLagBuckets`. -/
def submissionLagCounts (hws : List Homework) : List ℕ :=
  (submittedHomeworks hws).foldl lagStep (List.replicate 5 0)

/-- `submissionLagBuckets`: labeled lag-bucket counts. -/
def submissionLagBuckets (hws : List Homework) : List (String × ℕ) :=
  List.zipWith (fun (b : Bucket) c => (b.label, c)) lagBuckets (submissionLagCounts hws)

/-- `\d` of the source's regexes. -/
def jsIsDigit (c : Char) : Bool :=
  decide ('0' ≤ c) && decide (c ≤ '9')

/-- The character class `[\d.]`. -/
def jsIsDotDigit (c : Char) : Bool :=
  jsIsDigit c || c == '.'

/-- `\s` (the whitespace characters relevant to the parsed inputs). -/
def jsIsSpace (c : Char) : Bool :=
  c == ' ' || c == '\t' || c == '\n' || c == '\r' || c == '\x0b' || c == '\x0c'

/-- `\w`, used by the word-boundary assertion of the unit regex. -/
def jsIsWord (c : Char) : Bool :=
  (decide ('a' ≤ c) && decide (c ≤ 'z')) || (decide ('A' ≤ c) && decide (c ≤ 'Z')) ||
    jsIsDigit c || c == '_'

/-- Value of a digit string (`Number.parseInt(raw, 10)` on an all-digit string). -/
def digitsVal (l : List Char) : ℕ :=
  l.foldl (fun a c => a * 10 + (c.toNat - 48)) 0

/-- `Number.parseFloat` restricted to `[\d.]+` strings: leading digits, an
optional dot, more digits; anything after a second dot is ignored; a string
with no digit before parsing stops (such as `"."`) is `NaN`, modelled `none`. -/
def parseFloatQ (l : List Char) : Option ℚ :=
  let ip := l.takeWhile jsIsDigit
  match l.dropWhile jsIsDigit with
  | '.' :: r2 =>
    let fp := r2.takeWhile jsIsDigit
    if ip.isEmpty && fp.isEmpty then none
    else some ((digitsVal ip : ℚ) + (digitsVal fp : ℚ) / 10 ^ fp.length)
  | _ => if ip.isEmpty then none else some ((digitsVal ip : ℚ))

/-- `[kmgt]` (case-insensitive). -/
def isKMGT (c : Char) : Bool :=
  let d := c.toLower
  d == 'k' || d == 'm' || d == 'g' || d == 't'

/-- The regex tail `\b`: the next character is not a word character. -/
def wordBoundary : List Char → Bool
  | [] => true
  | c :: _ => !jsIsWord c

/-- The unit alternation `([kmgt]?b|[kmgt])\b` at the current position, with
the regex's backtracking priority: two-letter `[kmgt]b` first, then a bare
`b`, then a bare `[kmgt]`; each candidate must be followed by a word
boundary.  Returns the matched unit characters and the rest. -/
def unitMatch (l : List Char) : Option (List Char × List Char) :=
  let cands : List (List Char × List Char) :=
    (match l with
     | c1 :: c2 :: rest =>
       if isKMGT c1 && (c2.toLower == 'b') then [([c1, c2], rest)] else []
     | _ => []) ++
    (match l with
     | c :: rest =>
       (if c.toLower == 'b' then [([c], rest)] else []) ++
         (if isKMGT c then [([c], rest)] else [])
     | [] => [])
  cands.find? (fun p => wordBoundary p.2)

/-- One attempt of `raw.match(/([\d.]+)\s*([kmgt]?b|[kmgt])\b/i)` anchored at
the current position: a nonempty greedy `[\d.]+` run, greedy `\s*`, then the
unit.  (Shorter `[\d.]+` prefixes need no backtracking: the character after
the greedy run is neither a digit, a dot, a space nor able to start the unit
any earlier.) -/
def matchAtPos (l : List Char) : Option (List Char × List Char) :=
  if (l.takeWhile jsIsDotDigit).isEmpty then none
  else
    match unitMatch ((l.dropWhile jsIsDotDigit).dropWhile jsIsSpace) with
    | some (u, _) => some (l.takeWhile jsIsDotDigit, u)
    | none => none

/-- The unanchored regex search: try each start position left to right. -/
def searchMatch : List Char → Option (List Char × List Char)
  | [] => none
  | c :: t =>
    match matchAtPos (c :: t) with
    | some r => some r
    | none => searchMatch t

/-- `raw.match(/^([\d.]+)\s*bytes?$/i)`: returns the captured number string. -/
def bytesMatch (l : List Char) : Option (List Char) :=
  let num := l.takeWhile jsIsDotDigit
  if num.isEmpty then none
  else
    match ((l.dropWhile jsIsDotDigit).dropWhile jsIsSpace).map Char.toLower with
    | ['b', 'y', 't', 'e'] => some num
    | ['b', 'y', 't', 'e', 's'] => some num
    | _ => none

/-- `factorMap[unit] ?? 1` on the lowercased matched unit. -/
def unitFactor (l : List Char) : ℚ :=
  match l with
  | ['b'] => 1
  | ['k'] => 1024
  | ['k', 'b'] => 1024
  | ['m'] => 1024 ^ 2
  | ['m', 'b'] => 1024 ^ 2
  | ['g'] => 1024 ^ 3
  | ['g', 'b'] => 1024 ^ 3
  | ['t'] => 1024 ^ 4
  | ['t', 'b'] => 1024 ^ 4
  | _ => 1

/-- JavaScript `String.prototype.trim`. -/
def trimChars (l : List Char) : List Char :=
  ((l.dropWhile jsIsSpace).reverse.dropWhile jsIsSpace).reverse

/-- The body of `parseSizeToBytes` on the trimmed, comma-free string. -/
def parseProcessed (raw : List Char) : Option ℚ :=
  if raw.isEmpty then none
  else if raw.all jsIsDigit then some ((digitsVal raw : ℚ))
  else
    match searchMatch raw with
    | some (num, u) =>
      match parseFloatQ num with
      | some q => some (q * unitFactor (u.map Char.toLower))
      | none => none
    | none =>
      match bytesMatch raw with
      | some num => parseFloatQ num
      | none => none

/-- `parseSizeToBytes`: numbers pass through (every rational is finite, the
`Number.isFinite` guard never fires in this model); text is trimmed,
thousands-separator commas are removed, and the string is parsed. -/
def parseSizeToBytes : Option SizeValue → Option ℚ
  | none => none
  | some (.num q) => some q
  | some (.txt s) => parseProcessed ((trimChars s.data).filter (fun c => !(c == ',')))

/-- `pending = homeworks.filter(hw => !hw.submitted && hw.deadline)`. -/
def pendingList (hws : List Homework) : List Homework :=
  hws.filter (fun h => !h.submitted && h.deadline.isSome)

/-- The four pending-risk buckets. -/
def riskBuckets : List Bucket :=
  [⟨"<6小时", some 0, some 6⟩,
   ⟨"6-24小时", some 6, some 24⟩,
   ⟨"1-3天", some 24, some 72⟩,
   ⟨"3天以上", some 72, none⟩]

/-- `diffHours = (hw.deadline.getTime() - now) / 3600000`. -/
def diffHoursOf (now : ℤ) (h : Homework) : ℚ :=
  ((h.deadline.getD 0 - now : ℤ) : ℚ) / (msPerHour : ℚ)

/-- Result of `pendingRisk`. -/
structure PendingRisk where
  total : ℕ
  riskScore : ℚ
  items : List (String × ℕ)
deriving DecidableEq

/-- One iteration of the `pendingRisk` loop: records already past the
deadline (`diffHours < 0`) are skipped, the rest go to the first matching
bucket (none if `findIndex` returns `-1`). -/
def riskStep (now : ℤ) (counts : List ℕ) (h : Homework) : List ℕ :=
  if diffHoursOf now h < 0 then counts
  else
    match findIndexB (fun b => bucketMatches b (diffHoursOf now h)) riskBuckets with
    | some i => bump counts i
    | none => counts

/-- The pending-risk bucket counters. -/
def pendingRiskCounts (hws : List Homework) (now : ℤ) : List ℕ :=
  (pendingList hws).foldl (riskStep now) (List.replicate 4 0)

/-- `pendingRisk` with the "now" reference passed explicitly:
`soonCount = counts[0] + counts[1]`, `total` is the sum of the bucket
counts, `riskScore = total === 0 ? 0 : soonCount / total`. -/
def pendingRisk (hws : List Homework) (now : ℤ) : PendingRisk :=
  let counts := pendingRiskCounts hws now
  let soonCount := counts.getD 0 0 + counts.getD 1 0
  let total := counts.sum
  ⟨total,
   if total = 0 then 0 else (soonCount : ℚ) / (total : ℚ),
   List.zipWith (fun (b : Bucket) c => (b.label, c)) riskBuckets counts⟩

/-- The five attachment-size buckets. -/
def sizeBuckets : List Bucket :=
  [⟨"<100KB", some 0, some 102400⟩,
   ⟨"100KB-1MB", some 102400, some 1048576⟩,
   ⟨"1-5MB", some 1048576, some 5242880⟩,
   ⟨"5-20MB", some 5242880, some 20971520⟩,
   ⟨">20MB", some 20971520, none⟩]

/-- `submittedAll.map(hw => hw.submittedAttachment).filter(Boolean)`. -/
def attachmentsOf (hws : List Homework) : List Attachment :=
  (submittedAll hws).filterMap (fun h => h.submittedAttachment)

/-- `attachments.map(file => parseSizeToBytes(file?.size)).filter(isFiniteNumber)`. -/
def sizesOf (hws : List Homework) : List ℚ :=
  (attachmentsOf hws).filterMap (fun a => parseSizeToBytes a.size)

/-- Result of `attachmentStats`. -/
structure AttachmentStats where
  total : ℕ
  totalSize : ℚ
  bucketItems : List (String × ℕ)
deriving DecidableEq

/-- One iteration of the size-bucket loop of `attachmentStats`. -/
def sizeStep (counts : List ℕ) (s : ℚ) : List ℕ :=
  match findIndexB (fun b => bucketMatches b s) sizeBuckets with
  | some i => bump counts i
  | none => counts

/-- The size-bucket counters of `attachmentStats`. -/
def attachmentBucketCounts (hws : List Homework) : List ℕ :=
  (sizesOf hws).foldl sizeStep (List.replicate 5 0)

/-- `attachmentStats`: presence count over all attachment objects, byte sum
over the parseable sizes, and the labeled size-bucket counts. -/
def attachmentStats (hws : List Homework) : AttachmentStats :=
  ⟨(attachmentsOf hws).length,
   (sizesOf hws).foldl (· + ·) 0,
   List.zipWith (fun (b : Bucket) c => (b.label, c)) sizeBuckets (attachmentBucketCounts hws)⟩

/-- Civil calendar date (year, month 1–12, day 1–31) from an epoch day
number; the standard era-based algorithm, with floor divisions. -/
def civilOfDay (d : ℤ) : ℤ × ℤ × ℤ :=
  let z := d + 719468
  let era := z / 146097
  let doe := z - era * 146097
  let yoe := (doe - doe / 1461 + doe / 36524 - doe / 146096) / 365
  let y := yoe + era * 400
  let doy := doe - (365 * yoe + yoe / 4 - yoe / 100)
  let mp := (5 * doy + 2) / 153
  let day := doy - (153 * mp + 2) / 5 + 1
  let m := mp + (if mp < 10 then 3 else -9)
  (y + (if m ≤ 2 then 1 else 0), m, day)

/-- `Date.prototype.getMonth()` (0-based month) of an epoch day. -/
def getMonthOfDay (d : ℤ) : ℤ := (civilOfDay d).2.1 - 1

/-- `pad2`. -/
def pad2Z (n : ℤ) : String :=
  if n < 10 then "0" ++ toString n else toString n

/-- The `MM/DD` label the trend derives from `formatDateKey`'s
`YYYY-MM-DD` key. -/
def monthDayLabel (d : ℤ) : String :=
  pad2Z (civilOfDay d).2.1 ++ "/" ++ pad2Z (civilOfDay d).2.2

/-- Number of submissions whose `formatDateKey(submitTime)` is calendar day
`d` — the lookup `counts.get(key) ?? 0` on the per-day counting map. -/
def countOnDay (hws : List Homework) (d : ℤ) : ℕ :=
  ((submittedHomeworks hws).filter (fun h => dayOfMs (h.submitTime.getD 0) == d)).length

/-- One calendar-heatmap cell; the source labels a cell with its date key,
here represented by the epoch day number itself. -/
structure CalCell where
  day : ℤ
  value : ℕ
deriving DecidableEq

/-- Result of `calendarHeatmap`. -/
structure CalHeatmap where
  weeks : List (List CalCell)
  max : ℕ
  weekLabels : List String
deriving DecidableEq

/-- `Math.max(...submittedHomeworks.map(h => h.submitTime.getTime()))`;
0 for an empty list (the source never evaluates that case). -/
def lastSubmitMs (hws : List Homework) : ℤ :=
  match (submittedHomeworks hws).map (fun h => h.submitTime.getD 0) with
  | [] => 0
  | t :: ts => ts.foldl max t

/-- The grid origin: `startOfWeek(addDays(maxDate, -(16 * 7 - 1)))` at day
granularity. -/
def calendarStartDay (hws : List Homework) : ℤ :=
  startOfWeekDay (dayOfMs (lastSubmitMs hws) - 111)

/-- The month labels: the first week of each distinct month (tracked through
`lastMonth`, initially `-1`) is labeled `(month + 1) + "月"`, others get
an empty label. -/
def calendarWeekLabels (startDay : ℤ) : List String :=
  ((List.range 16).foldl
    (fun (acc : List String × ℤ) w =>
      let month := getMonthOfDay (startDay + (w : ℤ) * 7)
      if month ≠ acc.2 then (acc.1 ++ [toString (month + 1) ++ "月"], month)
      else (acc.1 ++ [""], acc.2))
    ([], -1)).1

/-- `calendarHeatmap`: an empty result without submissions, otherwise a
fixed 16-week × 7-day grid of daily counts starting at `calendarStartDay`,
with the grid-wide maximum and the month labels. -/
def calendarHeatmap (hws : List Homework) : CalHeatmap :=
  if (submittedHomeworks hws).length = 0 then ⟨[], 0, []⟩
  else
    let startDay := calendarStartDay hws
    let weeks := (List.range 16).map (fun w =>
      (List.range 7).map (fun d =>
        let day := startDay + ((w * 7 + d : ℕ) : ℤ)
        CalCell.mk day (countOnDay hws day)))
    ⟨weeks,
     (weeks.map (fun wk => (wk.map (fun c => c.value)).foldl max 0)).foldl max 0,
     calendarWeekLabels startDay⟩

/-- `submissionTrend`: the daily submission series over the resolved window.
The reversed-semester "swap" of the source is an aliasing no-op: `tmp`
references the same `Date` object as `startCandidate`, so after
`startCandidate.setTime(endCandidate.getTime())` the value read back from
`tmp` is already `endCandidate`'s time and both candidates end up equal to
the original `endCandidate`. -/
def submissionTrend (hws : List Homework) (sem : SemesterRange) : List (String × ℕ) :=
  let candidateDates :=
    (submittedHomeworks hws).map (fun h => h.submitTime.getD 0) ++
      hws.filterMap (fun h => h.deadline)
  match candidateDates with
  | [] => []
  | c :: rest =>
    let minDate := rest.foldl min c
    let maxDate := rest.foldl max c
    let window :=
      match sem.startDate, sem.endDate with
      | some firstDate, some lastDate =>
        let startCandidate := if lastDate < firstDate then lastDate else firstDate
        let endCandidate := lastDate
        let rangeDays : ℚ := ((endCandidate - startCandidate : ℤ) : ℚ) / (msPerDay : ℚ)
        if 7 ≤ rangeDays then (startCandidate, endCandidate) else (minDate, maxDate)
      | _, _ => (minDate, maxDate)
    let totalDays : ℕ :=
      (max 1 (⌈((window.2 - window.1 : ℤ) : ℚ) / (msPerDay : ℚ)⌉ + 1)).toNat
    (List.range totalDays).map (fun i =>
      let d := dayOfMs (window.1 + ((i : ℕ) : ℤ) * msPerDay)
      (monthDayLabel d, countOnDay hws d))

/-- `Math.round`: round half toward positive infinity. -/
def jsRound (q : ℚ) : ℤ := ⌊q + 1 / 2⌋

/-- Result of `procrastinationProfile`. -/
structure ProcProfile where
  score : ℤ
  label : String
  desc : String
deriving DecidableEq

/-- `procrastinationProfile` as a function of the three input rates:
`rawScore = lateRate*0.5 + last24Rate*0.3 + last6Rate*0.2`,
`score = Math.round(Math.min(1, rawScore) * 100)`, and the first matching
threshold (checked high to low) picks the label/description. -/
def procrastinationProfile (lr l24 l6 : ℚ) : ProcProfile :=
  let rawScore := lr * 0.5 + l24 * 0.3 + l6 * 0.2
  let score := jsRound (min 1 rawScore * 100)
  if 80 < score then ⟨score, "极限型", "常在最后时刻提交"⟩
  else if 60 < score then ⟨score, "冲刺型", "多在截止前提交"⟩
  else if 40 < score then ⟨score, "临界型", "停停催催，偶尔压线"⟩
  else if 20 < score then ⟨score, "稳健型", "节奏稳定，成品率高"⟩
  else ⟨score, "超前型", "提前规划，很少拖延"⟩

/-- `bump` preserves the length of a counter list. -/
theorem length_bump (l : List ℕ) (i : ℕ) : (bump l i).length = l.length := by
  simp [bump]

/-- Incrementing an in-range counter increments the sum. -/
theorem sum_bump (l : List ℕ) (i : ℕ) (h : i < l.length) :
    (bump l i).sum = l.sum + 1 := by
  induction l generalizing i with
  | nil => simp at h
  | cons a as ih =>
    cases i with
    | zero => simp [bump]; omega
    | succ j =>
      have hj : j < as.length := by simpa using h
      have := ih j hj
      simp [bump, List.set] at this ⊢
      omega

/-- What a successful `findIndex` means: the element at the returned index
satisfies the predicate and every earlier element does not. -/
theorem findIndexB_spec {α : Type _} {p : α → Bool} :
    ∀ {l : List α} {i : ℕ}, findIndexB p l = some i →
      ∃ a, l.get? i = some a ∧ p a = true ∧
        ∀ j b, j < i → l.get? j = some b → p b = false := by
  intro l
  induction l with
  | nil => intro i h; simp [findIndexB] at h
  | cons a as ih =>
    intro i h
    by_cases hp : p a
    · simp [findIndexB, hp] at h
      subst h
      exact ⟨a, rfl, hp, fun j b hj => by omega⟩
    · simp [findIndexB, hp] at h
      obtain ⟨i', hi', rfl⟩ := h
      obtain ⟨b, hb, hpb, hprev⟩ := ih hi'
      refine ⟨b, by simpa using hb, hpb, ?_⟩
      intro j c hj hc
      cases j with
      | zero =>
        simp at hc
        subst hc
        simpa using hp
      | succ j' =>
        exact hprev j' c (by omega) (by simpa using hc)

/-- A successful `findIndex` returns an in-range index. -/
theorem findIndexB_lt_length {α : Type _} {p : α → Bool} {l : List α} {i : ℕ}
    (h : findIndexB p l = some i) : i < l.length := by
  obtain ⟨a, ha, -⟩ := findIndexB_spec h
  exact List.get?_eq_some.mp ha |>.1

/-- The five lag buckets cover every (finite) rational lag value, so
`findIndex` always succeeds on them. -/
theorem lag_exists (q : ℚ) : ∃ i, lagFindIdx q = some i ∧ i < 5 := by
  rcases le_or_lt q 0 with h0 | h0
  · exact ⟨0, by simp [lagFindIdx, findIndexB, lagBuckets, bucketMatches, h0], by omega⟩
  · rcases le_or_lt q 6 with h6 | h6
    · exact ⟨1, by simp [lagFindIdx, findIndexB, lagBuckets, bucketMatches, h0, h6,
        not_le.mpr h0], by omega⟩
    · rcases le_or_lt q 24 with h24 | h24
      · exact ⟨2, by simp [lagFindIdx, findIndexB, lagBuckets, bucketMatches, h0, h6, h24,
          not_le.mpr h0, not_le.mpr h6], by omega⟩
      · rcases le_or_lt q 72 with h72 | h72
        · exact ⟨3, by simp [lagFindIdx, findIndexB, lagBuckets, bucketMatches, h0, h6, h24,
            h72, not_le.mpr h0, not_le.mpr h6, not_le.mpr h24], by omega⟩
        · exact ⟨4, by simp [lagFindIdx, findIndexB, lagBuckets, bucketMatches, h0, h6, h24,
            h72, not_le.mpr h0, not_le.mpr h6, not_le.mpr h24, not_le.mpr h72], by omega⟩

/-- The four risk buckets all have a strictly positive-side lower bound, so a
non-positive hours-until-deadline value matches none of them. -/
theorem risk_none_of_nonpos (q : ℚ) (hq : q ≤ 0) :
    findIndexB (fun b => bucketMatches b q) riskBuckets = none := by
  have h0 : ¬ (0 : ℚ) < q := not_lt.mpr hq
  have h6 : ¬ (6 : ℚ) < q := by intro h; linarith
  have h24 : ¬ (24 : ℚ) < q := by intro h; linarith
  have h72 : ¬ (72 : ℚ) < q := by intro h; linarith
  simp [findIndexB, riskBuckets, bucketMatches, h0, h6, h24, h72]

/-- The four risk buckets cover every strictly positive rational. -/
theorem risk_exists (q : ℚ) (hq : 0 < q) :
    ∃ i, findIndexB (fun b => bucketMatches b q) riskBuckets = some i ∧ i < 4 := by
  rcases le_or_lt q 6 with h6 | h6
  · exact ⟨0, by simp [findIndexB, riskBuckets, bucketMatches, hq, h6], by omega⟩
  · rcases le_or_lt q 24 with h24 | h24
    · exact ⟨1, by simp [findIndexB, riskBuckets, bucketMatches, hq, h24,
        not_le.mpr h6], by omega⟩
    · rcases le_or_lt q 72 with h72 | h72
      · exact ⟨2, by simp [findIndexB, riskBuckets, bucketMatches, hq, h72,
          not_le.mpr h6, not_le.mpr h24], by omega⟩
      · exact ⟨3, by simp [findIndexB, riskBuckets, bucketMatches, hq,
          not_le.mpr h6, not_le.mpr h24, not_le.mpr h72], by omega⟩

/-- A lag step preserves the counter length. -/
theorem length_lagStep (counts : List ℕ) (h : Homework) :
    (lagStep counts h).length = counts.length := by
  unfold lagStep
  split
  · split <;> simp [length_bump]
  · rfl

/-- On a five-slot counter, a lag step adds one iff the record has a deadline. -/
theorem sum_lagStep (counts : List ℕ) (h : Homework) (hlen : counts.length = 5) :
    (lagStep counts h).sum = counts.sum + (if h.deadline.isSome then 1 else 0) := by
  unfold lagStep
  by_cases hd : h.deadline.isSome
  · obtain ⟨i, hi, hi5⟩ := lag_exists (lagHoursOf h)
    simp [hd, hi, sum_bump counts i (by omega)]
  · simp [hd]

/-- Folding the lag loop over any record list adds the number of
deadline-bearing records to the counter sum. -/
theorem sum_lagFold (rs : List Homework) (counts : List ℕ) (hlen : counts.length = 5) :
    (rs.foldl lagStep counts).sum =
      counts.sum + rs.countP (fun h => h.deadline.isSome) := by
  induction rs generalizing counts with
  | nil => simp
  | cons r rs ih =>
    have hlen' : (lagStep counts r).length = 5 := by rw [length_lagStep]; exact hlen
    simp only [List.foldl_cons, ih (lagStep counts r) hlen',
      sum_lagStep counts r hlen, List.countP_cons]
    by_cases hd : r.deadline.isSome <;> simp [hd] <;> omega

/-- Projecting the counts back out of the label/count pairs. -/
theorem zipWith_label_snd (bs : List Bucket) (cs : List ℕ) (h : bs.length = cs.length) :
    (List.zipWith (fun (b : Bucket) c => (b.label, c)) bs cs).map Prod.snd = cs := by
  induction bs generalizing cs with
  | nil => cases cs <;> simp_all
  | cons b bs ih =>
    cases cs with
    | nil => simp_all
    | cons c cs => simp_all

/-- The lag fold preserves the counter length. -/
theorem length_lagFold (rs : List Homework) (counts : List ℕ) :
    (rs.foldl lagStep counts).length = counts.length := by
  induction rs generalizing counts with
  | nil => rfl
  | cons r rs ih => rw [List.foldl_cons, ih, length_lagStep]

/-- Under the documented invariant (`submitTime` present iff `submitted`),
the deadline-bearing members of `submittedHomeworks` are exactly the
submitted records with a deadline. -/
theorem countP_deadline_submitted (hws : List Homework)
    (hinv : ∀ r ∈ hws, r.submitted = true → r.submitTime.isSome = true) :
    (submittedHomeworks hws).countP (fun h => h.deadline.isSome) =
      (hws.filter (fun r => r.submitted && r.deadline.isSome)).length := by
  induction hws with
  | nil => rfl
  | cons r rs ih =>
    have hr := hinv r (by simp)
    have ihr := ih (fun a ha hs => hinv a (by simp [ha]) hs)
    unfold submittedHomeworks submittedAll at ihr ⊢
    simp only [List.filter_filter] at ihr ⊢
    by_cases hs : r.submitted = true
    · by_cases hst : r.submitTime.isSome = true
      · by_cases hd : r.deadline.isSome = true <;>
          simp [hs, hst, hd, List.countP_cons, List.filter_cons, ihr]
      · exact absurd (hr hs) hst
    · simp [hs, List.filter_cons, ihr]

/-- C1 counterexample: the boundary lag value `h = 6` satisfies
`0 < 6 ≤ 6`, so `findIndex` stops at the second bucket, labeled
`0-6小时` ("0–6h") — not at `6-24小时` ("6–24h") as the claim states. -/
theorem lag_bucket_six_counterexample :
    lagFindIdx 6 = some 1 ∧
    lagBuckets.get? 1 = some ⟨"0-6小时", some 0, some 6⟩ ∧
    lagBuckets.get? 2 = some ⟨"6-24小时", some 6, some 24⟩ ∧
    lagFindIdx 6 ≠ some 2 := by
  decide

/-- C1 (amended): for every non-negative lag value `h` the bucketer assigns
`h` to exactly one bucket or none — namely the first bucket in order with
`min < h ≤ max` — and the boundary value `h = 6` lands in the `0-6小时`
("0–6h") bucket, not in `6-24小时` ("6–24h"). -/
theorem lag_bucket_first_match (q : ℚ) (_hq : 0 ≤ q) :
    (∃ i b, lagFindIdx q = some i ∧ lagBuckets.get? i = some b ∧
      bucketMatches b q = true ∧
      ∀ j bj, j < i → lagBuckets.get? j = some bj → bucketMatches bj q = false) ∧
    lagFindIdx 6 = some 1 := by
  refine ⟨?_, by decide⟩
  obtain ⟨i, hi, -⟩ := lag_exists q
  obtain ⟨b, hb, hpb, hprev⟩ := findIndexB_spec hi
  exact ⟨i, b, hi, hb, hpb, hprev⟩

/-- Witness for `lag_bucket_first_match` at the concrete lag `h = 3`. -/
theorem lag_bucket_first_match_witness :
    (0 : ℚ) ≤ 3 ∧
    ((∃ i b, lagFindIdx 3 = some i ∧ lagBuckets.get? i = some b ∧
      bucketMatches b 3 = true ∧
      ∀ j bj, j < i → lagBuckets.get? j = some bj → bucketMatches bj 3 = false) ∧
    lagFindIdx 6 = some 1) :=
  ⟨by norm_num, lag_bucket_first_match 3 (by norm_num)⟩

/-- C9: because the five lag ranges cover every finite rational, each record
of `submittedHomeworks` carrying a deadline increments exactly one bucket,
so the lag-bucket counts sum to the number of submitted records with a
deadline (given the documented invariant that submitted records have a
submit time) — no record is dropped from the histogram. -/
theorem lag_counts_sum (hws : List Homework)
    (hinv : ∀ r ∈ hws, r.submitted = true → r.submitTime.isSome = true) :
    ((submissionLagBuckets hws).map Prod.snd).sum =
      (hws.filter (fun r => r.submitted && r.deadline.isSome)).length := by
  have hlen : (submissionLagCounts hws).length = 5 := by
    unfold submissionLagCounts
    rw [length_lagFold]
    simp
  rw [submissionLagBuckets, zipWith_label_snd _ _ (by simp [lagBuckets, hlen])]
  unfold submissionLagCounts
  rw [sum_lagFold _ _ (by simp)]
  simp [countP_deadline_submitted hws hinv]

/-- Witness for `lag_counts_sum` on a three-record set (one submitted with
deadline, one submitted without, one pending with deadline). -/
theorem lag_counts_sum_witness :
    (∀ r ∈ [(⟨0, "a", true, some 0, some 3600000, none⟩ : Homework),
            ⟨1, "a", true, some 0, none, none⟩,
            ⟨2, "b", false, none, some 0, none⟩],
        r.submitted = true → r.submitTime.isSome = true) ∧
    ((submissionLagBuckets
        [(⟨0, "a", true, some 0, some 3600000, none⟩ : Homework),
         ⟨1, "a", true, some 0, none, none⟩,
         ⟨2, "b", false, none, some 0, none⟩]).map Prod.snd).sum =
      ([(⟨0, "a", true, some 0, some 3600000, none⟩ : Homework),
        ⟨1, "a", true, some 0, none, none⟩,
        ⟨2, "b", false, none, some 0, none⟩].filter
          (fun r => r.submitted && r.deadline.isSome)).length :=
  ⟨by decide, lag_counts_sum _ (by decide)⟩

/-- Destructuring a four-slot counter list. -/
theorem list_length_eq_four {l : List ℕ} (h : l.length = 4) :
    ∃ a b c d, l = [a, b, c, d] := by
  cases l with
  | nil => simp at h
  | cons a l =>
    cases l with
    | nil => simp at h
    | cons b l =>
      cases l with
      | nil => simp at h
      | cons c l =>
        cases l with
        | nil => simp at h
        | cons d l =>
          cases l with
          | nil => exact ⟨a, b, c, d, rfl⟩
          | cons e l => simp at h

/-- A risk step preserves the counter length. -/
theorem length_riskStep (now : ℤ) (counts : List ℕ) (h : Homework) :
    (riskStep now counts h).length = counts.length := by
  unfold riskStep
  split
  · rfl
  · split <;> simp [length_bump]

/-- On a four-slot counter, a risk step adds one iff the record's
hours-until-deadline is strictly positive: negative values are skipped by
the guard, and a value of exactly zero matches no bucket. -/
theorem sum_riskStep (now : ℤ) (counts : List ℕ) (h : Homework)
    (hlen : counts.length = 4) :
    (riskStep now counts h).sum =
      counts.sum + (if 0 < diffHoursOf now h then 1 else 0) := by
  unfold riskStep
  by_cases hneg : diffHoursOf now h < 0
  · simp [hneg, not_lt.mpr (le_of_lt hneg)]
  · rcases lt_or_eq_of_le (not_lt.mp hneg) with hpos | hzero
    · obtain ⟨i, hi, hi4⟩ := risk_exists (diffHoursOf now h) hpos
      simp [hneg, hi, hpos, sum_bump counts i (by omega)]
    · have hnone := risk_none_of_nonpos (diffHoursOf now h) (le_of_eq hzero.symm)
      rw [← hzero] at hnone
      simp [hneg, hnone, ← hzero]

/-- The risk fold preserves the counter length. -/
theorem length_riskFold (now : ℤ) (rs : List Homework) (counts : List ℕ) :
    (rs.foldl (riskStep now) counts).length = counts.length := by
  induction rs generalizing counts with
  | nil => rfl
  | cons r rs ih => rw [List.foldl_cons, ih, length_riskStep]

/-- Folding the risk loop adds the number of records with strictly positive
hours-until-deadline. -/
theorem sum_riskFold (now : ℤ) (rs : List Homework) (counts : List ℕ)
    (hlen : counts.length = 4) :
    (rs.foldl (riskStep now) counts).sum =
      counts.sum + rs.countP (fun h => decide (0 < diffHoursOf now h)) := by
  induction rs generalizing counts with
  | nil => simp
  | cons r rs ih =>
    have hlen' : (riskStep now counts r).length = 4 := by rw [length_riskStep]; exact hlen
    simp only [List.foldl_cons, ih (riskStep now counts r) hlen',
      sum_riskStep now counts r hlen, List.countP_cons]
    by_cases hp : 0 < diffHoursOf now r <;> simp [hp] <;> omega

/-- C5 counterexample: a pending record whose deadline equals the injected
"now" has hours-until-deadline exactly 0 — not negative, so by the claim it
should be bucketed and counted — yet it matches no bucket (`0 > 0` fails for
the `<6小时` bucket) and the total stays 0. -/
theorem pending_risk_zero_hours_counterexample :
    diffHoursOf 0 ⟨0, "c", false, none, some 0, none⟩ = 0 ∧
    (pendingList [⟨0, "c", false, none, some 0, none⟩]).length = 1 ∧
    (pendingRisk [⟨0, "c", false, none, some 0, none⟩] 0).total = 0 ∧
    ((pendingRisk [⟨0, "c", false, none, some 0, none⟩] 0).items.map Prod.snd).sum = 0 := by
  have hc : pendingRiskCounts [⟨0, "c", false, none, some 0, none⟩] 0 = [0, 0, 0, 0] := by
    norm_num [pendingRiskCounts, pendingList, riskStep, diffHoursOf, findIndexB,
      riskBuckets, bucketMatches, List.filter, List.foldl, List.replicate]
  refine ⟨by norm_num [diffHoursOf], by decide, ?_, ?_⟩ <;>
    simp [pendingRisk, hc, riskBuckets]

/-- C5 (amended): records with negative — or exactly zero —
hours-until-deadline are excluded from every bucket and from the total;
every pending record with strictly positive hours lands in exactly one of
the four buckets, the bucket counts sum to the total, and
`riskScore = (count(<6h) + count(6-24h)) / total`, 0 when the total is 0. -/
theorem pending_risk_distribution (hws : List Homework) (now : ℤ) :
    (pendingRisk hws now).total =
      (pendingList hws).countP (fun h => decide (0 < diffHoursOf now h)) ∧
    ((pendingRisk hws now).items.map Prod.snd).sum = (pendingRisk hws now).total ∧
    (pendingRisk hws now).riskScore =
      (if (pendingRisk hws now).total = 0 then 0
       else ((((pendingRisk hws now).items.map Prod.snd).take 2).sum : ℚ) /
         (((pendingRisk hws now).total : ℕ) : ℚ)) := by
  have hlen : (pendingRiskCounts hws now).length = 4 := by
    unfold pendingRiskCounts
    rw [length_riskFold]
    simp
  have hsum : (pendingRiskCounts hws now).sum =
      (pendingList hws).countP (fun h => decide (0 < diffHoursOf now h)) := by
    unfold pendingRiskCounts
    rw [sum_riskFold now _ _ (by simp)]
    simp
  obtain ⟨a, b, c, d, habcd⟩ := list_length_eq_four hlen
  have hitems : (pendingRisk hws now).items.map Prod.snd = pendingRiskCounts hws now :=
    zipWith_label_snd riskBuckets _ (by simp [riskBuckets, hlen])
  refine ⟨hsum, ?_, ?_⟩
  · rw [hitems]
    rfl
  · rw [hitems]
    simp only [pendingRisk, habcd]
    norm_num [List.getD]

/-- A size step preserves the counter length. -/
theorem length_sizeStep (counts : List ℕ) (s : ℚ) :
    (sizeStep counts s).length = counts.length := by
  unfold sizeStep
  split <;> simp [length_bump]

/-- On a five-slot counter, a size step adds one iff some bucket matches. -/
theorem sum_sizeStep (counts : List ℕ) (s : ℚ) (hlen : counts.length = 5) :
    (sizeStep counts s).sum =
      counts.sum +
        (if (findIndexB (fun b => bucketMatches b s) sizeBuckets).isSome then 1 else 0) := by
  unfold sizeStep
  cases hf : findIndexB (fun b => bucketMatches b s) sizeBuckets with
  | none => simp [hf]
  | some i =>
    have hi : i < 5 := by
      have := findIndexB_lt_length hf
      simpa [sizeBuckets] using this
    simp [hf, sum_bump counts i (by omega)]

/-- The size fold preserves the counter length. -/
theorem length_sizeFold (ss : List ℚ) (counts : List ℕ) :
    (ss.foldl sizeStep counts).length = counts.length := by
  induction ss generalizing counts with
  | nil => rfl
  | cons s ss ih => rw [List.foldl_cons, ih, length_sizeStep]

/-- Folding the size loop adds the number of sizes matching some bucket. -/
theorem sum_sizeFold (ss : List ℚ) (counts : List ℕ) (hlen : counts.length = 5) :
    (ss.foldl sizeStep counts).sum =
      counts.sum +
        ss.countP (fun s => (findIndexB (fun b => bucketMatches b s) sizeBuckets).isSome) := by
  induction ss generalizing counts with
  | nil => simp
  | cons s ss ih =>
    have hlen' : (sizeStep counts s).length = 5 := by rw [length_sizeStep]; exact hlen
    simp only [List.foldl_cons, ih (sizeStep counts s) hlen',
      sum_sizeStep counts s hlen, List.countP_cons]
    cases hf : (findIndexB (fun b => bucketMatches b s) sizeBuckets).isSome <;>
      simp [hf] <;> omega

/-- Every size bucket has a non-negative exclusive lower bound, so a parsed
size of exactly 0 bytes matches none of them. -/
theorem size_none_of_nonpos (q : ℚ) (hq : q ≤ 0) :
    findIndexB (fun b => bucketMatches b q) sizeBuckets = none := by
  have h0 : ¬ (0 : ℚ) < q := not_lt.mpr hq
  have h1 : ¬ (102400 : ℚ) < q := by intro h; linarith
  have h2 : ¬ (1048576 : ℚ) < q := by intro h; linarith
  have h3 : ¬ (5242880 : ℚ) < q := by intro h; linarith
  have h4 : ¬ (20971520 : ℚ) < q := by intro h; linarith
  simp [findIndexB, sizeBuckets, bucketMatches, h0, h1, h2, h3, h4]

/-- Each bucketed size is parseable and goes to at most one bucket, so the
bucket counts never exceed the number of parseable sizes. -/
theorem sum_attachmentBucketCounts_le (hws : List Homework) :
    (attachmentBucketCounts hws).sum ≤ (sizesOf hws).length := by
  unfold attachmentBucketCounts
  rw [sum_sizeFold _ _ (by simp)]
  simpa using List.countP_le_length _

/-- C10: a submitted record with an attachment whose size parses to exactly
0 bytes is counted in `attachmentStats.total`, contributes 0 to
`attachmentStats.totalSize`, and is counted in no size bucket (the lowest
bucket has an exclusive lower bound of 0), so the bucket counts sum to
strictly fewer than the number of parseable attachments. -/
theorem attachment_zero_size_stats (hws : List Homework) (r : Homework) (a : Attachment)
    (hr1 : r.submitted = true) (hr2 : r.submittedAttachment = some a)
    (hr3 : parseSizeToBytes a.size = some 0) :
    (attachmentStats (hws ++ [r])).total = (attachmentStats hws).total + 1 ∧
    (attachmentStats (hws ++ [r])).totalSize = (attachmentStats hws).totalSize ∧
    (attachmentStats (hws ++ [r])).bucketItems = (attachmentStats hws).bucketItems ∧
    ((attachmentStats (hws ++ [r])).bucketItems.map Prod.snd).sum <
      (sizesOf (hws ++ [r])).length := by
  have hatt : attachmentsOf (hws ++ [r]) = attachmentsOf hws ++ [a] := by
    simp [attachmentsOf, submittedAll, List.filter_append, List.filterMap_append, hr1, hr2]
  have hsizes : sizesOf (hws ++ [r]) = sizesOf hws ++ [0] := by
    simp [sizesOf, hatt, List.filterMap_append, hr3]
  have hzero : findIndexB (fun b => bucketMatches b 0) sizeBuckets = none :=
    size_none_of_nonpos 0 le_rfl
  have hcounts : attachmentBucketCounts (hws ++ [r]) = attachmentBucketCounts hws := by
    unfold attachmentBucketCounts
    rw [hsizes, List.foldl_append]
    simp [sizeStep, hzero]
  have hlen5 : (attachmentBucketCounts hws).length = 5 := by
    unfold attachmentBucketCounts
    rw [length_sizeFold]
    simp
  have hitems : (attachmentStats hws).bucketItems.map Prod.snd = attachmentBucketCounts hws :=
    zipWith_label_snd sizeBuckets _ (by simp [sizeBuckets, hlen5])
  refine ⟨?_, ?_, ?_, ?_⟩
  · simp [attachmentStats, hatt]
  · simp [attachmentStats, hsizes, List.foldl_append]
  · simp [attachmentStats, hcounts]
  · have : ((attachmentStats (hws ++ [r])).bucketItems.map Prod.snd).sum =
        (attachmentBucketCounts hws).sum := by
      show ((List.zipWith _ sizeBuckets (attachmentBucketCounts (hws ++ [r]))).map Prod.snd).sum =
        (attachmentBucketCounts hws).sum
      rw [hcounts, zipWith_label_snd sizeBuckets _ (by simp [sizeBuckets, hlen5])]
    rw [this, hsizes]
    have hle := sum_attachmentBucketCounts_le hws
    simp only [List.length_append, List.length_cons, List.length_nil]
    omega

/-- Witness for `attachment_zero_size_stats`: one record whose attachment
size is the number 0. -/
theorem attachment_zero_size_stats_witness :
    (attachmentStats [(⟨0, "c", true, some 0, none, some ⟨some (.num 0)⟩⟩ : Homework)]).total =
        (attachmentStats []).total + 1 ∧
    (attachmentStats [(⟨0, "c", true, some 0, none, some ⟨some (.num 0)⟩⟩ : Homework)]).totalSize =
        (attachmentStats []).totalSize ∧
    (attachmentStats [(⟨0, "c", true, some 0, none, some ⟨some (.num 0)⟩⟩ : Homework)]).bucketItems =
        (attachmentStats []).bucketItems ∧
    ((attachmentStats [(⟨0, "c", true, some 0, none,
        some ⟨some (.num 0)⟩⟩ : Homework)]).bucketItems.map Prod.snd).sum <
      (sizesOf [(⟨0, "c", true, some 0, none, some ⟨some (.num 0)⟩⟩ : Homework)]).length := by
  have h := attachment_zero_size_stats [] ⟨0, "c", true, some 0, none, some ⟨some (.num 0)⟩⟩
    ⟨some (.num 0)⟩ rfl rfl rfl
  simpa using h

/-- Rewriting the claim's set-builder counts into the source's filters. -/
theorem countP_interval_eq_filter (l : List ℚ) (c : ℚ) :
    l.countP (fun h => decide (0 ≤ h ∧ h ≤ c)) =
      (l.filter (fun h => decide (0 ≤ h) && decide (h ≤ c))).length := by
  rw [← List.countP_eq_length_filter]
  congr 1
  funext h
  by_cases h1 : (0 : ℚ) ≤ h <;> by_cases h2 : h ≤ c <;> simp [h1, h2]

/-- C6: `leadHours` is `(deadline − submitTime)/3600000` over every
submitted record with a deadline (late submissions included as negative
values); `last6Rate = |{h : 0 ≤ h ≤ 6}| / |leadHours|` and
`last24Rate = |{h : 0 ≤ h ≤ 24}| / |leadHours|`, both 0 when `leadHours`
is empty — negative values count in the denominator but never in a
numerator. -/
theorem lead_rates_spec (hws : List Homework) :
    leadHours hws =
      ((submittedHomeworks hws).filter (fun h => h.deadline.isSome)).map
        (fun h => ((h.deadline.getD 0 - h.submitTime.getD 0 : ℤ) : ℚ) / (msPerHour : ℚ)) ∧
    (leadHours hws = [] → last6Rate hws = 0 ∧ last24Rate hws = 0) ∧
    last6Rate hws =
      (if (leadHours hws).length = 0 then 0
       else (((leadHours hws).countP (fun h => decide (0 ≤ h ∧ h ≤ 6))) : ℚ) /
         ((leadHours hws).length : ℚ)) ∧
    last24Rate hws =
      (if (leadHours hws).length = 0 then 0
       else (((leadHours hws).countP (fun h => decide (0 ≤ h ∧ h ≤ 24))) : ℚ) /
         ((leadHours hws).length : ℚ)) := by
  refine ⟨?_, ?_, ?_, ?_⟩
  · unfold leadHours
    split
    · next hlen =>
      have hnil : submittedHomeworks hws = [] := List.length_eq_zero.mp hlen
      simp [hnil]
    · rfl
  · intro h
    constructor <;> simp [last6Rate, last24Rate, h]
  · rw [countP_interval_eq_filter]
    rfl
  · rw [countP_interval_eq_filter]
    rfl

/-- C8: every rate returns 0 when its denominator is 0 (the guards make the
divisions total), and `submissionRate` always lies in `[0, 1]`. -/
theorem rates_zero_guard (hws : List Homework) (now : ℤ) :
    (hws.length = 0 → submissionRate hws = 0) ∧
    ((submittedHomeworks hws).length = 0 →
      nightRate hws = 0 ∧ weekendRate hws = 0 ∧ lateRate hws = 0) ∧
    ((leadHours hws).length = 0 → last6Rate hws = 0 ∧ last24Rate hws = 0) ∧
    ((pendingRisk hws now).total = 0 → (pendingRisk hws now).riskScore = 0) ∧
    0 ≤ submissionRate hws ∧ submissionRate hws ≤ 1 := by
  refine ⟨?_, ?_, ?_, ?_, ?_, ?_⟩
  · intro h
    simp [submissionRate, h]
  · intro h
    refine ⟨?_, ?_, ?_⟩ <;> simp [nightRate, weekendRate, lateRate, h]
  · intro h
    constructor <;> simp [last6Rate, last24Rate, h]
  · intro h
    simp only [pendingRisk] at h ⊢
    rw [if_pos h]
  · unfold submissionRate
    split
    · exact le_refl 0
    · positivity
  · unfold submissionRate
    split
    · exact zero_le_one
    · next hne =>
      rw [div_le_one (by positivity)]
      exact_mod_cast List.length_filter_le _ hws

/-- Witness for `rates_zero_guard` on the empty record set. -/
theorem rates_zero_guard_witness :
    submissionRate ([] : List Homework) = 0 ∧ nightRate [] = 0 ∧ weekendRate [] = 0 ∧
    lateRate [] = 0 ∧ last6Rate [] = 0 ∧ last24Rate [] = 0 ∧
    (pendingRisk [] 0).riskScore = 0 ∧
    0 ≤ submissionRate ([] : List Homework) ∧ submissionRate [] ≤ 1 := by
  obtain ⟨h1, h2, h3, h4, h5, h6⟩ := rates_zero_guard [] 0
  exact ⟨h1 rfl, (h2 rfl).1, (h2 rfl).2.1, (h2 rfl).2.2, (h3 rfl).1, (h3 rfl).2,
    h4 rfl, h5, h6⟩

/-- C7: the procrastination score is the weighted raw score clamped to
`[0, 1]` (for non-negative input rates the `min` of the source and a full
clamp agree) and rounded after scaling to 0–100; the five labels partition
the score range with first-match-from-the-top semantics, and the specified
example `lateRate = last24Rate = last6Rate = 0.9` yields score 90 and the
"extreme" label `极限型`. -/
theorem procrastination_score_spec (lr l24 l6 : ℚ)
    (h1 : 0 ≤ lr) (h2 : 0 ≤ l24) (h3 : 0 ≤ l6) :
    (procrastinationProfile lr l24 l6).score =
      jsRound (max 0 (min 1 (lr * 0.5 + l24 * 0.3 + l6 * 0.2)) * 100) ∧
    (80 < (procrastinationProfile lr l24 l6).score →
      (procrastinationProfile lr l24 l6).label = "极限型") ∧
    (60 < (procrastinationProfile lr l24 l6).score ∧
        (procrastinationProfile lr l24 l6).score ≤ 80 →
      (procrastinationProfile lr l24 l6).label = "冲刺型") ∧
    (40 < (procrastinationProfile lr l24 l6).score ∧
        (procrastinationProfile lr l24 l6).score ≤ 60 →
      (procrastinationProfile lr l24 l6).label = "临界型") ∧
    (20 < (procrastinationProfile lr l24 l6).score ∧
        (procrastinationProfile lr l24 l6).score ≤ 40 →
      (procrastinationProfile lr l24 l6).label = "稳健型") ∧
    ((procrastinationProfile lr l24 l6).score ≤ 20 →
      (procrastinationProfile lr l24 l6).label = "超前型") ∧
    procrastinationProfile 0.9 0.9 0.9 = ⟨90, "极限型", "常在最后时刻提交"⟩ := by
  have hclamp : max 0 (min 1 (lr * 0.5 + l24 * 0.3 + l6 * 0.2)) =
      min 1 (lr * 0.5 + l24 * 0.3 + l6 * 0.2) :=
    max_eq_right (le_min (by norm_num) (by positivity))
  rw [hclamp]
  refine ⟨?_, ?_, ?_, ?_, ?_, ?_, by norm_num [procrastinationProfile, jsRound]⟩
  · simp only [procrastinationProfile]
    split_ifs <;> rfl
  · simp only [procrastinationProfile]
    split_ifs <;> intro h <;> dsimp only at h ⊢ <;> first | rfl | omega
  · simp only [procrastinationProfile]
    split_ifs <;> intro h <;> dsimp only at h ⊢ <;> first | rfl | omega
  · simp only [procrastinationProfile]
    split_ifs <;> intro h <;> dsimp only at h ⊢ <;> first | rfl | omega
  · simp only [procrastinationProfile]
    split_ifs <;> intro h <;> dsimp only at h ⊢ <;> first | rfl | omega
  · simp only [procrastinationProfile]
    split_ifs <;> intro h <;> dsimp only at h ⊢ <;> first | rfl | omega

/-- Witness for `procrastination_score_spec` at the specified 0.9 rates. -/
theorem procrastination_score_spec_witness :
    procrastinationProfile 0.9 0.9 0.9 = ⟨90, "极限型", "常在最后时刻提交"⟩ :=
  (procrastination_score_spec 0.9 0.9 0.9 (by norm_num) (by norm_num)
    (by norm_num)).2.2.2.2.2.2

/-- C2 counterexample: a single submission on epoch day 3 (1970-01-04, a
Sunday).  The grid is 16 × 7 as claimed, but no cell of the grid — in
particular none in its last week — carries that day: the window ends on the
previous Saturday (day 2), not at the Sunday-start week containing the most
recent submission. -/
theorem calendar_last_week_counterexample :
    dayOfMs (lastSubmitMs [⟨0, "c", true, some (3 * 86400000), none, none⟩]) = 3 ∧
    weekdayOfDay 3 = 0 ∧
    (calendarHeatmap [⟨0, "c", true, some (3 * 86400000), none, none⟩]).weeks.length = 16 ∧
    (calendarHeatmap [⟨0, "c", true, some (3 * 86400000), none, none⟩]).weeks.all
      (fun wk => wk.length == 7) = true ∧
    (calendarHeatmap [⟨0, "c", true, some (3 * 86400000), none, none⟩]).weeks.all
      (fun wk => wk.all (fun c => c.day != 3)) = true := by
  decide

/-- C2 (amended): with at least one submission the calendar heatmap is
always exactly 16 weeks × 7 day-cells covering 112 consecutive days, but its
window ends at the most recent Saturday on or before the most recent
submission: the last cell's day is `maxDay - ((weekday(maxDay) + 1) % 7)`,
which equals `maxDay` exactly when the most recent submission falls on a
Saturday and otherwise lies strictly before the Sunday-start week containing
the most recent submission. -/
theorem calendar_grid_shape (hws : List Homework)
    (hne : submittedHomeworks hws ≠ []) :
    (calendarHeatmap hws).weeks =
      (List.range 16).map (fun w =>
        (List.range 7).map (fun d =>
          CalCell.mk (calendarStartDay hws + ((w * 7 + d : ℕ) : ℤ))
            (countOnDay hws (calendarStartDay hws + ((w * 7 + d : ℕ) : ℤ))))) ∧
    (calendarHeatmap hws).weeks.length = 16 ∧
    (∀ wk ∈ (calendarHeatmap hws).weeks, wk.length = 7) ∧
    calendarStartDay hws + 111 =
      dayOfMs (lastSubmitMs hws) - ((weekdayOfDay (dayOfMs (lastSubmitMs hws)) + 1) % 7) ∧
    (weekdayOfDay (dayOfMs (lastSubmitMs hws)) = 6 →
      calendarStartDay hws + 111 = dayOfMs (lastSubmitMs hws)) ∧
    (weekdayOfDay (dayOfMs (lastSubmitMs hws)) ≠ 6 →
      calendarStartDay hws + 111 < startOfWeekDay (dayOfMs (lastSubmitMs hws))) := by
  have hlen0 : ¬ (submittedHomeworks hws).length = 0 := by
    simpa [List.length_eq_zero] using hne
  have hweeks : (calendarHeatmap hws).weeks =
      (List.range 16).map (fun w =>
        (List.range 7).map (fun d =>
          CalCell.mk (calendarStartDay hws + ((w * 7 + d : ℕ) : ℤ))
            (countOnDay hws (calendarStartDay hws + ((w * 7 + d : ℕ) : ℤ))))) := by
    unfold calendarHeatmap
    rw [if_neg hlen0]
  refine ⟨hweeks, by simp [hweeks], ?_, ?_, ?_, ?_⟩
  · intro wk hwk
    rw [hweeks] at hwk
    obtain ⟨w, -, rfl⟩ := List.mem_map.mp hwk
    rw [List.length_map, List.length_range]
  · unfold calendarStartDay startOfWeekDay weekdayOfDay
    omega
  · unfold calendarStartDay startOfWeekDay weekdayOfDay
    omega
  · unfold calendarStartDay startOfWeekDay weekdayOfDay
    omega

/-- Witness for `calendar_grid_shape`: a single submission on epoch day 9
(1970-01-10, a Saturday), where the grid does end at the submission's day. -/
theorem calendar_grid_shape_witness :
    (calendarHeatmap [⟨0, "c", true, some (9 * 86400000), none, none⟩]).weeks.length = 16 ∧
    calendarStartDay [⟨0, "c", true, some (9 * 86400000), none, none⟩] + 111 =
      dayOfMs (lastSubmitMs [⟨0, "c", true, some (9 * 86400000), none, none⟩]) := by
  have h := calendar_grid_shape [⟨0, "c", true, some (9 * 86400000), none, none⟩] (by decide)
  exact ⟨h.2.1, h.2.2.2.2.1 (by decide)⟩

/-- C3 evaluation at the failing input: one submission on epoch day 50, the
semester given reversed as `startDate` = day 100, `endDate` = day 10 — a
91-day span once normalized, so the claim expects 91 daily points.  Because
the source's swap aliases `tmp` to `startCandidate`, both candidates end up
equal to the original `endDate`, the span computes to 0 < 7 days, the
semester range is discarded, and the series collapses to the single
data-derived day; given in the correct order, the very same range does
produce the 91 points. -/
theorem trend_reversed_semester_ignored :
    (submissionTrend [⟨0, "c", true, some (50 * 86400000), none, none⟩]
        ⟨some (100 * 86400000), some (10 * 86400000)⟩).length = 1 ∧
    (submissionTrend [⟨0, "c", true, some (50 * 86400000), none, none⟩]
        ⟨some (10 * 86400000), some (100 * 86400000)⟩).length = 91 := by
  constructor <;>
    norm_num [submissionTrend, submittedHomeworks, submittedAll, lastSubmitMs, msPerDay,
      List.filter, List.filterMap, List.foldl, Int.toNat]

/-- Splitting `takeWhile`/`dropWhile` at a known boundary: if every element
of the prefix satisfies `p` and the head of the suffix (when any) does not,
the greedy scan stops exactly at the boundary. -/
theorem takeWhile_dropWhile_append {p : Char → Bool} (l₁ l₂ : List Char)
    (h1 : ∀ c ∈ l₁, p c = true)
    (h2 : ∀ c, l₂.head? = some c → p c = false) :
    (l₁ ++ l₂).takeWhile p = l₁ ∧ (l₁ ++ l₂).dropWhile p = l₂ := by
  induction l₁ with
  | nil =>
    cases l₂ with
    | nil => simp
    | cons c t =>
      have hc : p c = false := h2 c rfl
      simp [List.takeWhile_cons, List.dropWhile_cons, hc]
  | cons a l₁ ih =>
    have ha : p a = true := h1 a (by simp)
    have := ih (fun c hc => h1 c (by simp [hc]))
    simp [List.takeWhile_cons, List.dropWhile_cons, ha, this.1, this.2]

/-- A whitespace character is not a digit or a dot. -/
theorem space_not_dotdigit {c : Char} (h : jsIsSpace c = true) : jsIsDotDigit c = false := by
  simp only [jsIsSpace, Bool.or_eq_true, beq_iff_eq] at h
  rcases h with ((((h | h) | h) | h) | h) | h <;> subst h <;> decide

/-- A digit is a dot-digit. -/
theorem digit_dotdigit {c : Char} (h : jsIsDigit c = true) : jsIsDotDigit c = true := by
  simp [jsIsDotDigit, h]

/-- The decimal value denoted by an integer-part/fractional-part digit pair,
as the specification reads the numeral. -/
def decimalVal (ip fp : List Char) : ℚ :=
  (digitsVal ip : ℚ) + (digitsVal fp : ℚ) / 10 ^ fp.length

/-- `parseFloat` on a well-formed decimal numeral (an optional dot between
two digit runs, at least one digit in total) yields its decimal value. -/
theorem parseFloatQ_spec (ip fp : List Char) (hasDot : Bool)
    (hip : ∀ c ∈ ip, jsIsDigit c = true) (hfp : ∀ c ∈ fp, jsIsDigit c = true)
    (hne : ip ≠ [] ∨ (hasDot = true ∧ fp ≠ []))
    (hnodot : hasDot = false → fp = []) :
    parseFloatQ (ip ++ (if hasDot then '.' :: fp else [])) = some (decimalVal ip fp) := by
  cases hasDot with
  | false =>
    have hfp0 : fp = [] := hnodot rfl
    subst hfp0
    have hip' : ip ≠ [] := by
      rcases hne with h | ⟨h, -⟩
      · exact h
      · cases h
    have hipF : ip.isEmpty = false := by
      cases ip with
      | nil => exact absurd rfl hip'
      | cons a t => rfl
    obtain ⟨hl, hr⟩ := takeWhile_dropWhile_append (p := jsIsDigit) ip [] hip
      (fun c hc => by simp at hc)
    simp only [List.append_nil] at hl hr
    have hlist : (ip ++ (if (false : Bool) = true then '.' :: ([] : List Char) else [])) = ip := by
      simp
    rw [hlist]
    unfold parseFloatQ
    rw [hl, hr]
    show (if ip.isEmpty = true then none else some ((digitsVal ip : ℚ))) = some (decimalVal ip [])
    rw [hipF]
    norm_num [decimalVal, digitsVal]
  | true =>
    have hdot : ∀ c, ('.' :: fp).head? = some c → jsIsDigit c = false := by
      intro c hc
      simp at hc
      subst hc
      decide
    obtain ⟨hl, hr⟩ := takeWhile_dropWhile_append (p := jsIsDigit) ip ('.' :: fp) hip hdot
    have hl2 : fp.takeWhile jsIsDigit = fp := by
      simpa using (takeWhile_dropWhile_append (p := jsIsDigit) fp [] hfp
        (fun c hc => by simp at hc)).1
    have hguard : (ip.isEmpty && fp.isEmpty) = false := by
      rcases hne with h | ⟨-, h⟩ <;> cases ip <;> cases fp <;> simp_all
    have hlist : (ip ++ (if (true : Bool) = true then '.' :: fp else [])) = ip ++ '.' :: fp := by
      simp
    rw [hlist]
    unfold parseFloatQ
    rw [hl, hr]
    simp only [hl2, hguard, Bool.false_eq_true, if_false]
    rfl

/-- The nine units of the factor map, in all letter-case spellings, paired
with their power-of-1024 factors — the table the specification describes. -/
def unitTable : List (List Char × ℚ) :=
  [(['b'], 1), (['B'], 1),
   (['k'], 1024), (['K'], 1024),
   (['m'], 1024 ^ 2), (['M'], 1024 ^ 2),
   (['g'], 1024 ^ 3), (['G'], 1024 ^ 3),
   (['t'], 1024 ^ 4), (['T'], 1024 ^ 4),
   (['k', 'b'], 1024), (['k', 'B'], 1024), (['K', 'b'], 1024), (['K', 'B'], 1024),
   (['m', 'b'], 1024 ^ 2), (['m', 'B'], 1024 ^ 2), (['M', 'b'], 1024 ^ 2),
   (['M', 'B'], 1024 ^ 2),
   (['g', 'b'], 1024 ^ 3), (['g', 'B'], 1024 ^ 3), (['G', 'b'], 1024 ^ 3),
   (['G', 'B'], 1024 ^ 3),
   (['t', 'b'], 1024 ^ 4), (['t', 'B'], 1024 ^ 4), (['T', 'b'], 1024 ^ 4),
   (['T', 'B'], 1024 ^ 4)]

/-- The unanchored search succeeds immediately when position 0 matches. -/
theorem searchMatch_of_matchAtPos {l : List Char} {r : List Char × List Char}
    (hne : l ≠ []) (h : matchAtPos l = some r) : searchMatch l = some r := by
  cases l with
  | nil => exact absurd rfl hne
  | cons a t => simp only [searchMatch, h]

/-- Running the regex pipeline on `numStr ++ sp ++ u`, where `numStr` is a
nonempty dot-digit run parsing to `q`, `sp` is whitespace, and `u` is a
string the unit alternation accepts whole (with factor `f`): the search
matches at position 0 and the result is `q * f`. -/
theorem parseProcessed_core (numStr sp u : List Char) (q f : ℚ)
    (hnum : ∀ c ∈ numStr, jsIsDotDigit c = true)
    (hnum_ne : numStr ≠ [])
    (hsp : ∀ c ∈ sp, jsIsSpace c = true)
    (hpf : parseFloatQ numStr = some q)
    (huhead : ∀ c, u.head? = some c → jsIsSpace c = false ∧ jsIsDotDigit c = false)
    (hune : u ≠ [])
    (hud : u.all jsIsDigit = false)
    (hunit : unitMatch u = some (u, []))
    (hfac : unitFactor (u.map Char.toLower) = f) :
    parseProcessed (numStr ++ (sp ++ u)) = some (q * f) := by
  have hraw_ne : (numStr ++ (sp ++ u)).isEmpty = false := by
    cases numStr with
    | nil => exact absurd rfl hnum_ne
    | cons a t => rfl
  have hud' : (numStr ++ (sp ++ u)).all jsIsDigit = false := by
    rw [List.all_append, List.all_append, hud]
    simp
  have hbreak1 : ∀ c, (sp ++ u).head? = some c → jsIsDotDigit c = false := by
    intro c hc
    cases sp with
    | nil =>
      simp only [List.nil_append] at hc
      exact (huhead c hc).2
    | cons s t =>
      simp only [List.cons_append, List.head?_cons, Option.some.injEq] at hc
      exact hc ▸ space_not_dotdigit (hsp s (by simp))
  obtain ⟨htake, hdrop⟩ :=
    takeWhile_dropWhile_append (p := jsIsDotDigit) numStr (sp ++ u) hnum hbreak1
  obtain ⟨-, hdrop2⟩ := takeWhile_dropWhile_append (p := jsIsSpace) sp u hsp
    (fun c hc => (huhead c hc).1)
  have hnumE : numStr.isEmpty = false := by
    cases numStr with
    | nil => exact absurd rfl hnum_ne
    | cons a t => rfl
  have hmatch : matchAtPos (numStr ++ (sp ++ u)) = some (numStr, u) := by
    unfold matchAtPos
    rw [htake, hdrop, hdrop2, hnumE, hunit]
    rfl
  have hsearch : searchMatch (numStr ++ (sp ++ u)) = some (numStr, u) :=
    searchMatch_of_matchAtPos
      (fun h => hnum_ne (List.append_eq_nil.mp h).1) hmatch
  unfold parseProcessed
  rw [hraw_ne, hud', hsearch]
  simp only [hpf, hfac, Bool.false_eq_true, if_false]

/-- Every entry of the unit table is accepted whole by the unit alternation,
is not a digit string, starts with a letter that is neither whitespace nor a
dot-digit, and looks up to its listed factor. -/
theorem unitTable_sound : ∀ p ∈ unitTable,
    unitMatch p.1 = some (p.1, []) ∧
    p.1.all jsIsDigit = false ∧
    unitFactor (p.1.map Char.toLower) = p.2 ∧
    p.1 ≠ [] ∧
    ∀ c ∈ p.1.take 1, jsIsSpace c = false ∧ jsIsDotDigit c = false := by
  decide

/-- A decimal numeral followed by optional whitespace and a unit from the
table parses to the numeral's value times the unit's factor. -/
theorem parseProcessed_num_unit (ip fp sp u : List Char) (f : ℚ) (hasDot : Bool)
    (hip : ∀ c ∈ ip, jsIsDigit c = true) (hfp : ∀ c ∈ fp, jsIsDigit c = true)
    (hsp : ∀ c ∈ sp, jsIsSpace c = true)
    (hne : ip ≠ [] ∨ (hasDot = true ∧ fp ≠ []))
    (hnodot : hasDot = false → fp = [])
    (hu : (u, f) ∈ unitTable) :
    parseProcessed ((ip ++ (if hasDot then '.' :: fp else [])) ++ (sp ++ u)) =
      some (decimalVal ip fp * f) := by
  have hnum : ∀ c ∈ ip ++ (if hasDot then '.' :: fp else []), jsIsDotDigit c = true := by
    intro c hc
    rcases List.mem_append.mp hc with h | h
    · exact digit_dotdigit (hip c h)
    · cases hasDot with
      | false => simp at h
      | true =>
        simp only [if_true] at h
        rcases List.mem_cons.mp h with rfl | h
        · decide
        · exact digit_dotdigit (hfp c h)
  have hnum_ne : ip ++ (if hasDot then '.' :: fp else []) ≠ [] := by
    rcases hne with h | ⟨hd, -⟩
    · intro hcon
      exact h (List.append_eq_nil.mp hcon).1
    · subst hd
      intro hcon
      simpa using (List.append_eq_nil.mp hcon).2
  have hpf := parseFloatQ_spec ip fp hasDot hip hfp hne hnodot
  obtain ⟨hunit, hud, hfac, hune, hhead⟩ := unitTable_sound (u, f) hu
  have huhead : ∀ c, u.head? = some c → jsIsSpace c = false ∧ jsIsDotDigit c = false := by
    intro c hc
    cases u with
    | nil => simp at hc
    | cons a t =>
      simp only [List.head?_cons, Option.some.injEq] at hc
      subst hc
      exact hhead a (by simp)
  exact parseProcessed_core _ sp _ _ _ hnum hnum_ne hsp hpf huhead hune hud hunit hfac

/-- C4 counterexample: the bare decimal `"3.5"` — a number with the unit
absent — does not parse: the digits-only rule rejects the dot, the unit
regex requires a unit letter, and the `bytes` fallback requires the literal
word; the parser yields the unparseable signal, not 3.5 bytes.  (A bare
digit string such as `"35"` does parse, via the digits-only rule.) -/
theorem parse_bare_decimal_unparseable :
    parseSizeToBytes (some (.txt "3.5")) = none ∧
    parseSizeToBytes (some (.txt "35")) = some 35 := by
  constructor
  · decide
  · show parseProcessed ((trimChars "35".data).filter (fun c => !(c == ','))) = some 35
    norm_num [trimChars, List.filter, parseProcessed, digitsVal]
    decide

/-- C4 (amended): for every input string that, after trimming and removing
thousands-separator commas, consists of a decimal number followed by a
**required** unit among b/kb/mb/gb/tb/k/m/g/t (any letter case, optional
whitespace before the unit), `parseSizeToBytes` returns the number times the
unit's power-of-1024 factor (factor 1 for `b`).  A number with no unit
parses only when it is a bare digit string (rule (c)); a bare decimal such
as `"3.5"` yields the unparseable signal. -/
theorem parse_number_with_unit (s : String) (ip fp sp u : List Char) (f : ℚ)
    (hasDot : Bool)
    (hip : ∀ c ∈ ip, jsIsDigit c = true) (hfp : ∀ c ∈ fp, jsIsDigit c = true)
    (hsp : ∀ c ∈ sp, jsIsSpace c = true)
    (hne : ip ≠ [] ∨ (hasDot = true ∧ fp ≠ []))
    (hnodot : hasDot = false → fp = [])
    (hu : (u, f) ∈ unitTable)
    (hproc : (trimChars s.data).filter (fun c => !(c == ',')) =
      (ip ++ (if hasDot then '.' :: fp else [])) ++ (sp ++ u)) :
    parseSizeToBytes (some (.txt s)) = some (decimalVal ip fp * f) := by
  show parseProcessed ((trimChars s.data).filter (fun c => !(c == ','))) =
    some (decimalVal ip fp * f)
  rw [hproc]
  exact parseProcessed_num_unit ip fp sp u f hasDot hip hfp hsp hne hnodot hu

/-- Witness for `parse_number_with_unit`: `"3.5 MB"` parses to
`3.5 × 1024² = 3670016` bytes. -/
theorem parse_number_with_unit_witness :
    parseSizeToBytes (some (.txt "3.5 MB")) = some 3670016 := by
  have h := parse_number_with_unit "3.5 MB" ['3'] ['5'] [' '] ['M', 'B'] (1024 ^ 2) true
    (by decide) (by decide) (by decide) (Or.inl (by decide)) (by simp) (by decide)
    (by decide)
  rw [h]
  norm_num [decimalVal, digitsVal, show Char.toNat '3' = 51 from rfl,
    show Char.toNat '5' = 53 from rfl]

/-- Witness for `lead_rates_spec`: with no records `leadHours` is empty and
both near-deadline rates are 0. -/
theorem lead_rates_spec_witness :
    last6Rate ([] : List Homework) = 0 ∧ last24Rate ([] : List Homework) = 0 :=
  (lead_rates_spec []).2.1 rfl
